import Mathlib

/-!
Verification development for the nitro excerpt: the on-chain value-stack
commitment library (ValueStackLib over ValueStack) and the off-chain
data-availability reader adapters (readerForBlobReader in
arbstate/daprovider/reader.go). Machine words are modelled as Nat with
explicit bounds where overflow matters; reverts and runtime aborts are
modelled as Option / explicit result constructors.
-/

set_option autoImplicit false

namespace Nitro

/-- Modelled from the spec: the external Value type (Value.sol is not part of
the excerpt) is an opaque unit of machine state whose only contract used here
is a deterministic 32-byte content hash, so it is represented by that hash
(a Nat standing for a bytes32). -/
structure Value where
  valueHash : Nat
deriving DecidableEq, Repr

/-- Modelled from the spec: the external ValueArray type (ValueArray.sol is not
part of the excerpt) is an ordered growable sequence of Value with stack-style
end access. -/
structure ValueArray where
  inner : List Value
deriving DecidableEq, Repr

namespace ValueArrayLib

/-- Modelled from the spec: report length. -/
def length (a : ValueArray) : Nat :=
  a.inner.length

/-- Modelled from the spec: random-access get by index in [0, length);
out-of-range access is a fatal failure, modelled as none. -/
def get (a : ValueArray) (i : Nat) : Option Value :=
  a.inner.get? i

/-- Modelled from the spec: append one element at the logical end. -/
def push (a : ValueArray) (v : Value) : ValueArray :=
  ⟨a.inner ++ [v]⟩

/-- Modelled from the spec: remove-and-return the element at the logical end;
fails when empty (fatal, modelled as none). -/
def pop (a : ValueArray) : Option (Value × ValueArray) :=
  match a.inner.getLast? with
  | none => none
  | some v => some (v, ⟨a.inner.dropLast⟩)

end ValueArrayLib

/-- ValueStack from the source: a revealed portion `proved` plus a 32-byte
commitment `remainingHash` to the hidden remainder (Nat standing for bytes32,
with 0 the zero sentinel). -/
structure ValueStack where
  proved : ValueArray
  remainingHash : Nat
deriving DecidableEq, Repr

/-- The 12 ASCII bytes of the domain-separation tag "Value stack:". -/
def valueStackTag : List Nat :=
  [86, 97, 108, 117, 101, 32, 115, 116, 97, 99, 107, 58]

/-- Big-endian 32-byte encoding of a bytes32 value, as abi.encodePacked lays
out a bytes32 argument. -/
def toBytes32 (n : Nat) : List Nat :=
  (List.range 32).map (fun i => n / 256 ^ (31 - i) % 256)

/-- Solidity 0.8 checked subtraction on uint256: reverts (none) on underflow. -/
def checkedSub (a b : Nat) : Option Nat :=
  if b ≤ a then some (a - b) else none

namespace ValueStackLib

/-- The loop body of ValueStackLib.hash: one keccak256 step over
abi.encodePacked("Value stack:", valueHash, accumulator). -/
def hashStep (keccak256 : List Nat → Nat) (h : Nat) (v : Value) : Nat :=
  keccak256 (valueStackTag ++ toBytes32 v.valueHash ++ toBytes32 h)

/-- The for-loop of ValueStackLib.hash: iterate i from its current value up to
len, updating the accumulator with get(i). Inside the loop i < len, so the
get is always in range; getD only supplies an unreachable default. -/
def hashAux (keccak256 : List Nat → Nat) (proved : ValueArray) (len i h : Nat) : Nat :=
  if i < len then
    hashAux keccak256 proved len (i + 1)
      (hashStep keccak256 h ((ValueArrayLib.get proved i).getD ⟨0⟩))
  else h
termination_by len - i

/-- ValueStackLib.hash from the source: h starts at stack.remainingHash and the
loop folds keccak256 over the proved elements in ascending index order. -/
def hash (keccak256 : List Nat → Nat) (stack : ValueStack) : Nat :=
  hashAux keccak256 stack.proved (ValueArrayLib.length stack.proved) 0 stack.remainingHash

/-- ValueStackLib.peek from the source: get(len - 1) where len - 1 is checked
uint256 subtraction, so an empty proved portion reverts on underflow. -/
def peek (stack : ValueStack) : Option Value :=
  match checkedSub (ValueArrayLib.length stack.proved) 1 with
  | none => none
  | some j => ValueArrayLib.get stack.proved j

/-- ValueStackLib.pop from the source: delegates to ValueArray pop (fails when
empty); the stack is updated in place, modelled by returning the new stack. -/
def pop (stack : ValueStack) : Option (Value × ValueStack) :=
  match ValueArrayLib.pop stack.proved with
  | none => none
  | some (v, a) => some (v, { stack with proved := a })

/-- ValueStackLib.push from the source: append val to proved. -/
def push (stack : ValueStack) (val : Value) : ValueStack :=
  { stack with proved := ValueArrayLib.push stack.proved val }

/-- ValueStackLib.isEmpty from the source:
proved.length() == 0 && remainingHash == bytes32(0). -/
def isEmpty (stack : ValueStack) : Bool :=
  decide (ValueArrayLib.length stack.proved = 0) && decide (stack.remainingHash = 0)

/-- ValueStackLib.hasProvenDepthLessThan from the source:
proved.length() < bound && remainingHash == bytes32(0). -/
def hasProvenDepthLessThan (stack : ValueStack) (bound : Nat) : Bool :=
  decide (ValueArrayLib.length stack.proved < bound) && decide (stack.remainingHash = 0)

end ValueStackLib

/-- The left fold the spec describes for the stack commitment: start from
remainingHash and fold hashStep over the proved elements from index 0 upward.
Stated from the words of the spec, to be compared with ValueStackLib.hash. -/
def hashSpecFold (keccak256 : List Nat → Nat) (stack : ValueStack) : Nat :=
  stack.proved.inner.foldl (ValueStackLib.hashStep keccak256) stack.remainingHash

/-! The blob-backed DA reader adapter from arbstate/daprovider/reader.go.
Byte strings are List Nat; a versioned hash (common.Hash, 32 bytes) is a
List Nat of length 32; the wrapped BlobReader capability (GetBlobs) and the
external blobs.DecodeBlobs routine are boundary dependencies, passed in as
functions returning Except String. -/

/-- The caller-supplied preimages map: preimage-type tag to a map from 32-byte
hash to raw content bytes, modelled as nested association lists. -/
abbrev PreimagesMap := List (Nat × List (List Nat × List Nat))

/-- Outcome of one RecoverPayloadFromBatch call: a Go runtime panic when
slicing past the end of the message, a non-nil error with nil payload, or a
nil error with a possibly-nil payload (ok none is the soft miss). -/
inductive RecoverResult where
  | outOfRange : RecoverResult
  | err : String → RecoverResult
  | ok : Option (List Nat) → RecoverResult
deriving DecidableEq, Repr

/-- The extraction loop of RecoverPayloadFromBatch: for i from its current
value while i*32 < len(blobHashes), take bytes [i*32, (i+1)*32) of blobHashes
as the next versioned hash. -/
def extractVersionedHashesAux (blobHashes : List Nat) (i : Nat) : List (List Nat) :=
  if h : i * 32 < blobHashes.length then
    ((blobHashes.drop (i * 32)).take 32) :: extractVersionedHashesAux blobHashes (i + 1)
  else []
termination_by blobHashes.length - i * 32
decreasing_by simp_wf; omega

/-- readerForBlobReader.RecoverPayloadFromBatch from the source. The initial
slice sequencerMsg[41:] panics when the message is shorter than 41 bytes
(outOfRange); then the length check, the GetBlobs fetch (wrapped error on
failure) and DecodeBlobs (soft miss on failure) follow the Go code. The
preimages map is threaded through unchanged, as the body never mentions it. -/
def recoverPayloadFromBatch
    (getBlobs : List Nat → List (List Nat) → Except String (List (List Nat)))
    (decodeBlobs : List (List Nat) → Except String (List Nat))
    (batchNum : Nat) (batchBlockHash : List Nat) (sequencerMsg : List Nat)
    (preimages : PreimagesMap) : RecoverResult × PreimagesMap :=
  if sequencerMsg.length < 41 then (RecoverResult.outOfRange, preimages)
  else
    let blobHashes := sequencerMsg.drop 41
    if blobHashes.length % 32 ≠ 0 then
      (RecoverResult.err "blob batch data is not a list of hashes as expected", preimages)
    else
      let versionedHashes := extractVersionedHashesAux blobHashes 0
      match getBlobs batchBlockHash versionedHashes with
      | Except.error e => (RecoverResult.err ("failed to get blobs: " ++ e), preimages)
      | Except.ok kzgBlobs =>
        match decodeBlobs kzgBlobs with
        | Except.error _ => (RecoverResult.ok none, preimages)
        | Except.ok payload => (RecoverResult.ok (some payload), preimages)

/-- Reference chunking of a byte string into consecutive 32-byte pieces, used
to reason about the extraction loop. -/
def chunkList (l : List Nat) : List (List Nat) :=
  if l.length = 0 then [] else l.take 32 :: chunkList (l.drop 32)
termination_by l.length
decreasing_by simp_wf; omega

/-- A blob fetch that succeeds, returning the requested hashes as the blobs. -/
def getBlobsOkW : List Nat → List (List Nat) → Except String (List (List Nat)) :=
  fun _ versionedHashes => Except.ok versionedHashes

/-- A blob decode that always fails. -/
def decodeFailW : List (List Nat) → Except String (List Nat) :=
  fun _ => Except.error "decode failed"

/-- A blob decode that succeeds, concatenating the blobs. -/
def decodeOkW : List (List Nat) → Except String (List Nat) :=
  fun kzgBlobs => Except.ok kzgBlobs.flatten

/-- A 41-byte message: header only, zero versioned hashes. -/
def msgA : List Nat := List.replicate 41 0

/-- A 51-byte message: 10 bytes past the header, not a multiple of 32. -/
def msgB : List Nat := List.replicate 51 0

/-- A 73-byte message: header plus exactly one 32-byte versioned hash. -/
def msgD : List Nat := List.replicate 73 0

lemma hashAux_eq_foldl_fuel (keccak256 : List Nat → Nat) (l : List Value) :
    ∀ n i h, l.length - i ≤ n → ValueStackLib.hashAux keccak256 ⟨l⟩ l.length i h =
      (l.drop i).foldl (ValueStackLib.hashStep keccak256) h := by
  intro n
  induction n with
  | zero =>
    intro i h hle
    unfold ValueStackLib.hashAux
    rw [if_neg (by omega)]
    rw [List.drop_eq_nil_of_le (by omega)]
    rfl
  | succ n ih =>
    intro i h hle
    unfold ValueStackLib.hashAux
    by_cases hi : i < l.length
    · rw [if_pos hi]
      have hdrop : l.drop i = l.get ⟨i, hi⟩ :: l.drop (i + 1) := by
        rw [List.get_eq_getElem]
        exact List.drop_eq_getElem_cons hi
      have hget : (ValueArrayLib.get ⟨l⟩ i).getD ⟨0⟩ = l.get ⟨i, hi⟩ := by
        simp [ValueArrayLib.get, List.get?_eq_getElem?, List.getElem?_eq_getElem hi,
          List.get_eq_getElem]
      rw [hget, hdrop, List.foldl_cons]
      exact ih (i + 1) _ (by omega)
    · rw [if_neg hi]
      rw [List.drop_eq_nil_of_le (by omega)]
      rfl

lemma hashAux_eq_foldl (keccak256 : List Nat → Nat) (l : List Value) (i h : Nat) :
    ValueStackLib.hashAux keccak256 ⟨l⟩ l.length i h =
      (l.drop i).foldl (ValueStackLib.hashStep keccak256) h :=
  hashAux_eq_foldl_fuel keccak256 l (l.length - i) i h (Nat.le_refl _)

lemma hash_eq_fold (keccak256 : List Nat → Nat) (stack : ValueStack) :
    ValueStackLib.hash keccak256 stack = hashSpecFold keccak256 stack := by
  obtain ⟨⟨l⟩, r⟩ := stack
  show ValueStackLib.hashAux keccak256 ⟨l⟩ l.length 0 r = _
  rw [hashAux_eq_foldl]
  rfl

lemma extract_eq_chunk_fuel :
    ∀ (n : Nat) (l : List Nat) (i : Nat), l.length - i * 32 ≤ n →
      extractVersionedHashesAux l i = chunkList (l.drop (i * 32)) := by
  intro n
  induction n with
  | zero =>
    intro l i hle
    unfold extractVersionedHashesAux
    rw [dif_neg (by omega)]
    unfold chunkList
    rw [if_pos (by simp; omega)]
  | succ n ih =>
    intro l i hle
    unfold extractVersionedHashesAux
    by_cases hi : i * 32 < l.length
    · rw [dif_pos hi]
      conv_rhs => unfold chunkList
      rw [if_neg (by simp; omega)]
      congr 1
      rw [List.drop_drop]
      have harith : i * 32 + 32 = (i + 1) * 32 := by ring
      rw [harith]
      exact ih l (i + 1) (by omega)
    · rw [dif_neg hi]
      unfold chunkList
      rw [if_pos (by simp; omega)]

lemma extract_eq_chunk (l : List Nat) :
    extractVersionedHashesAux l 0 = chunkList l := by
  have := extract_eq_chunk_fuel l.length l 0 (by omega)
  simpa using this

lemma extract_nil (l : List Nat) (h : l.length = 0) :
    extractVersionedHashesAux l 0 = [] := by
  unfold extractVersionedHashesAux
  rw [dif_neg (by omega)]

lemma chunkList_length : ∀ (k : Nat) (l : List Nat), l.length = 32 * k →
    (chunkList l).length = k := by
  intro k
  induction k with
  | zero =>
    intro l hl
    unfold chunkList
    rw [if_pos (by omega)]
    rfl
  | succ k ih =>
    intro l hl
    unfold chunkList
    rw [if_neg (by omega)]
    have : (l.drop 32).length = 32 * k := by simp; omega
    simp [ih (l.drop 32) this]

lemma chunkList_get : ∀ (i k : Nat) (l : List Nat), l.length = 32 * k → i < k →
    (chunkList l).get? i = some ((l.drop (32 * i)).take 32) := by
  intro i
  induction i with
  | zero =>
    intro k l hl hk
    unfold chunkList
    rw [if_neg (by omega)]
    simp
  | succ i ih =>
    intro k l hl hk
    obtain ⟨j, rfl⟩ : ∃ j, k = j + 1 := ⟨k - 1, by omega⟩
    unfold chunkList
    rw [if_neg (by omega)]
    have hdl : (l.drop 32).length = 32 * j := by simp; omega
    have := ih j (l.drop 32) hdl (by omega)
    rw [List.get?_cons_succ, this, List.drop_drop]
    have harith : 32 + 32 * i = 32 * (i + 1) := by ring
    rw [harith]

end Nitro

namespace Nitro

/-- C1: for every ValueStack, hash(stack) equals the left fold that starts at
stack.remainingHash and, for each i from 0 to length(proved)-1 ascending,
updates the accumulator to keccak256 of the tag "Value stack:" followed by the
32-byte element hash followed by the 32-byte accumulator, in that byte order;
in particular a stack whose proved portion is empty hashes to remainingHash. -/
theorem C1_hash_is_left_fold (keccak256 : List Nat → Nat) (stack : ValueStack) (r : Nat) :
    ValueStackLib.hash keccak256 stack = hashSpecFold keccak256 stack ∧
    ValueStackLib.hash keccak256 ⟨⟨[]⟩, r⟩ = r := by
  refine ⟨hash_eq_fold keccak256 stack, ?_⟩
  rw [hash_eq_fold]
  rfl

/-- C6: peek and pop on a ValueStack whose proved portion is empty are fatal
failures (modelled as none: peek reverts on the checked subtraction len - 1,
pop fails through the ValueArray remove-at-end contract); no sentinel Value is
returned. -/
theorem C6_peek_pop_empty_fatal (r : Nat) :
    ValueStackLib.peek ⟨⟨[]⟩, r⟩ = none ∧ ValueStackLib.pop ⟨⟨[]⟩, r⟩ = none := by
  constructor <;> rfl

/-- C7: hasProvenDepthLessThan(stack, bound) is true iff remainingHash is the
zero sentinel and length(proved) < bound; with bound = 0 it is false for every
stack. -/
theorem C7_hasProvenDepthLessThan_iff (stack : ValueStack) (bound : Nat) :
    (ValueStackLib.hasProvenDepthLessThan stack bound = true ↔
      stack.remainingHash = 0 ∧ ValueArrayLib.length stack.proved < bound) ∧
    ValueStackLib.hasProvenDepthLessThan stack 0 = false := by
  constructor
  · simp [ValueStackLib.hasProvenDepthLessThan, and_comm]
  · simp [ValueStackLib.hasProvenDepthLessThan]

/-- C8: isEmpty(stack) is true iff length(proved) = 0 and remainingHash is the
zero sentinel; failing either condition makes it false. -/
theorem C8_isEmpty_iff (stack : ValueStack) :
    ValueStackLib.isEmpty stack = true ↔
      ValueArrayLib.length stack.proved = 0 ∧ stack.remainingHash = 0 := by
  simp [ValueStackLib.isEmpty]

/-- C9: pushing a value V onto a ValueStack with an empty proved portion and
then popping returns V and restores the stack, proved portion empty and
remainingHash unchanged. -/
theorem C9_push_pop_round_trip (r : Nat) (V : Value) :
    ValueStackLib.pop (ValueStackLib.push ⟨⟨[]⟩, r⟩ V) = some (V, ⟨⟨[]⟩, r⟩) := by
  rfl

end Nitro

namespace Nitro

/-- C2: when the message parses (length at least 41 and a whole number of
32-byte hashes), the blob fetch succeeds, and decoding the fetched blobs
fails, RecoverPayloadFromBatch returns an absent payload with no error (the
soft miss, ok none), which differs from every non-nil-error outcome. -/
theorem C2_decode_failure_soft_miss
    (getBlobs : List Nat → List (List Nat) → Except String (List (List Nat)))
    (decodeBlobs : List (List Nat) → Except String (List Nat))
    (batchNum : Nat) (batchBlockHash : List Nat) (sequencerMsg : List Nat)
    (preimages : PreimagesMap) (bs : List (List Nat)) (e : String)
    (hlen : 41 ≤ sequencerMsg.length)
    (hmul : (sequencerMsg.length - 41) % 32 = 0)
    (hfetch : getBlobs batchBlockHash (extractVersionedHashesAux (sequencerMsg.drop 41) 0)
      = Except.ok bs)
    (hdecode : decodeBlobs bs = Except.error e) :
    recoverPayloadFromBatch getBlobs decodeBlobs batchNum batchBlockHash sequencerMsg preimages
      = (RecoverResult.ok none, preimages)
    ∧ (∀ m, (RecoverResult.ok none : RecoverResult) ≠ RecoverResult.err m) := by
  refine ⟨?_, fun m h => RecoverResult.noConfusion h⟩
  have hmul2 : ¬ (sequencerMsg.drop 41).length % 32 ≠ 0 := by
    simp only [List.length_drop]
    omega
  simp only [recoverPayloadFromBatch, if_neg (show ¬ sequencerMsg.length < 41 by omega),
    if_neg hmul2, hfetch, hdecode]

/-- C2 witness: a 41-byte message with zero hashes, a succeeding fetch and a
failing decode yield the soft miss. -/
theorem C2_witness :
    (41 ≤ msgA.length ∧ (msgA.length - 41) % 32 = 0
      ∧ getBlobsOkW [] (extractVersionedHashesAux (msgA.drop 41) 0) = Except.ok []
      ∧ decodeFailW [] = Except.error "decode failed")
    ∧ recoverPayloadFromBatch getBlobsOkW decodeFailW 0 [] msgA []
        = (RecoverResult.ok none, []) :=
  ⟨⟨by decide, by decide, by rw [ extract_nil _ (by decide)]; rfl, rfl⟩,
    (C2_decode_failure_soft_miss getBlobsOkW decodeFailW 0 [] msgA [] [] "decode failed"
      (by decide) (by decide) (by rw [ extract_nil _ (by decide)]; rfl) rfl).1⟩

/-- C3: a message of at least 41 bytes whose tail length is not a multiple of
32 makes RecoverPayloadFromBatch fail with exactly the format error, with no
payload, for every fetch and decode capability (so the fetch is never
consulted). -/
theorem C3_bad_length_format_error
    (sequencerMsg : List Nat)
    (hlen : 41 ≤ sequencerMsg.length)
    (hmul : (sequencerMsg.length - 41) % 32 ≠ 0) :
    ∀ (getBlobs : List Nat → List (List Nat) → Except String (List (List Nat)))
      (decodeBlobs : List (List Nat) → Except String (List Nat))
      (batchNum : Nat) (batchBlockHash : List Nat) (preimages : PreimagesMap),
      recoverPayloadFromBatch getBlobs decodeBlobs batchNum batchBlockHash sequencerMsg preimages
        = (RecoverResult.err "blob batch data is not a list of hashes as expected",
            preimages) := by
  intro g d bn bh pre
  have hmul2 : (sequencerMsg.drop 41).length % 32 ≠ 0 := by
    simp only [List.length_drop]
    omega
  simp only [recoverPayloadFromBatch, if_neg (show ¬ sequencerMsg.length < 41 by omega),
    if_pos hmul2]

/-- C3 witness: a 51-byte message (10 bytes past the header) hits the format
error regardless of the supplied capabilities. -/
theorem C3_witness :
    (41 ≤ msgB.length ∧ (msgB.length - 41) % 32 ≠ 0)
    ∧ recoverPayloadFromBatch getBlobsOkW decodeOkW 0 [] msgB []
        = (RecoverResult.err "blob batch data is not a list of hashes as expected", []) :=
  ⟨⟨by decide, by decide⟩,
    C3_bad_length_format_error msgB (by decide) (by decide) getBlobsOkW decodeOkW 0 [] []⟩

/-- C4: a message shorter than 41 bytes makes RecoverPayloadFromBatch abort
with the runtime out-of-range failure of the slice sequencerMsg[41:], for
every capability; the abort is distinct from every error result and from
every (payload, nil-error) result. -/
theorem C4_short_message_out_of_range
    (sequencerMsg : List Nat) (hshort : sequencerMsg.length < 41) :
    ∀ (getBlobs : List Nat → List (List Nat) → Except String (List (List Nat)))
      (decodeBlobs : List (List Nat) → Except String (List Nat))
      (batchNum : Nat) (batchBlockHash : List Nat) (preimages : PreimagesMap),
      recoverPayloadFromBatch getBlobs decodeBlobs batchNum batchBlockHash sequencerMsg preimages
        = (RecoverResult.outOfRange, preimages)
      ∧ (∀ m, RecoverResult.outOfRange ≠ RecoverResult.err m)
      ∧ (∀ p, RecoverResult.outOfRange ≠ RecoverResult.ok p) := by
  intro g d bn bh pre
  refine ⟨?_, fun m h => RecoverResult.noConfusion h, fun p h => RecoverResult.noConfusion h⟩
  simp only [recoverPayloadFromBatch, if_pos hshort]

/-- C4 witness: the empty message aborts out of range. -/
theorem C4_witness :
    ([] : List Nat).length < 41
    ∧ recoverPayloadFromBatch getBlobsOkW decodeOkW 0 [] [] []
        = (RecoverResult.outOfRange, []) :=
  ⟨by decide,
    (C4_short_message_out_of_range [] (by decide) getBlobsOkW decodeOkW 0 [] []).1⟩

/-- C5: a message of exactly 41 + 32k bytes yields exactly k versioned hashes,
the i-th being bytes [41+32i, 41+32(i+1)) of the message verbatim, and
RecoverPayloadFromBatch hands exactly that list, in order, together with the
given L1 block hash, to the wrapped blob-fetch capability, whose outcome then
fully determines the result. -/
theorem C5_versioned_hash_extraction
    (getBlobs : List Nat → List (List Nat) → Except String (List (List Nat)))
    (decodeBlobs : List (List Nat) → Except String (List Nat))
    (batchNum : Nat) (batchBlockHash : List Nat) (sequencerMsg : List Nat)
    (preimages : PreimagesMap) (k : Nat)
    (hlen : sequencerMsg.length = 41 + 32 * k) :
    (extractVersionedHashesAux (sequencerMsg.drop 41) 0).length = k
    ∧ (∀ i, i < k → (extractVersionedHashesAux (sequencerMsg.drop 41) 0).get? i
        = some ((sequencerMsg.drop (41 + 32 * i)).take 32))
    ∧ recoverPayloadFromBatch getBlobs decodeBlobs batchNum batchBlockHash sequencerMsg preimages
        = (match getBlobs batchBlockHash (extractVersionedHashesAux (sequencerMsg.drop 41) 0) with
           | Except.error e => (RecoverResult.err ("failed to get blobs: " ++ e), preimages)
           | Except.ok kzgBlobs =>
             match decodeBlobs kzgBlobs with
             | Except.error _ => (RecoverResult.ok none, preimages)
             | Except.ok payload => (RecoverResult.ok (some payload), preimages)) := by
  have hd : (sequencerMsg.drop 41).length = 32 * k := by
    simp only [List.length_drop]
    omega
  refine ⟨?_, ?_, ?_⟩
  · rw [extract_eq_chunk]
    exact chunkList_length k _ hd
  · intro i hi
    rw [extract_eq_chunk, chunkList_get i k _ hd hi, List.drop_drop]
  · have hmul2 : ¬ (sequencerMsg.drop 41).length % 32 ≠ 0 := by
      rw [hd]
      simp [Nat.mul_mod_right]
    simp only [recoverPayloadFromBatch, if_neg (show ¬ sequencerMsg.length < 41 by omega),
      if_neg hmul2]

/-- C5 witness: a 73-byte message yields exactly one versioned hash and the
result is determined by the fetch on that list. -/
theorem C5_witness :
    msgD.length = 41 + 32 * 1
    ∧ (extractVersionedHashesAux (msgD.drop 41) 0).length = 1
    ∧ recoverPayloadFromBatch getBlobsOkW decodeOkW 0 [] msgD []
        = (match getBlobsOkW [] (extractVersionedHashesAux (msgD.drop 41) 0) with
           | Except.error e => (RecoverResult.err ("failed to get blobs: " ++ e), [])
           | Except.ok kzgBlobs =>
             match decodeOkW kzgBlobs with
             | Except.error _ => (RecoverResult.ok none, [])
             | Except.ok payload => (RecoverResult.ok (some payload), [])) :=
  ⟨by decide,
    (C5_versioned_hash_extraction getBlobsOkW decodeOkW 0 [] msgD [] 1 (by decide)).1,
    (C5_versioned_hash_extraction getBlobsOkW decodeOkW 0 [] msgD [] 1 (by decide)).2.2⟩

/-- C10: RecoverPayloadFromBatch leaves the caller-supplied preimages map
identical on every path: short message, format error, fetch failure, decode
soft miss, and success. -/
theorem C10_preimages_untouched
    (getBlobs : List Nat → List (List Nat) → Except String (List (List Nat)))
    (decodeBlobs : List (List Nat) → Except String (List Nat))
    (batchNum : Nat) (batchBlockHash : List Nat) (sequencerMsg : List Nat)
    (preimages : PreimagesMap) :
    (recoverPayloadFromBatch getBlobs decodeBlobs batchNum batchBlockHash sequencerMsg
      preimages).2 = preimages := by
  simp only [recoverPayloadFromBatch]
  split
  · rfl
  · split
    · rfl
    · split
      · rfl
      · split
        · rfl
        · rfl

end Nitro
